import Mathlib

/-!
Verification of the connector/integration subsystem of the Straai repository.

Shallow embedding of:
- `TokenManager` (src/server/src/connectors/TokenManager.ts): AES-256-GCM
  envelope encryption, webhook signature validation.
- `ConnectorManager.handleOAuthCallback` and OAuth state handling
  (src/server/src/connectors/ConnectorManager.ts).
- `withAdvisoryLock` (src/unnamed/part_020, lib/schedulerLock).
- `BaseConnector` 401 interceptor and `getLastSyncTime` (src/unnamed/part_019).
- `ShopifyConnector.sync` / pagination loops (src/unnamed/part_004) and
  `KlaviyoConnector.sync` (src/server/src/connectors/KlaviyoConnector.ts).
- The `GET /integrations/:provider/status` route (src/unnamed/part_018).

Database calls (Prisma) are modelled as pure state transitions over explicit
row lists; provider HTTP calls are modelled as oracle functions supplied as
parameters; strings entering Node's crypto as UTF-8 are modelled as their
byte lists (`List Nat`, each element < 256).
-/

/-! ## Hex encoding (Buffer.toString('hex') / Buffer.from(_, 'hex')) -/

/-- One lowercase hex digit, as produced by Node's hex encoding. -/
def hexDigit (n : Nat) : Char :=
  if n < 10 then Char.ofNat (48 + n) else Char.ofNat (87 + n)

/-- Two hex digits of one byte. -/
def byteToHex (b : Nat) : List Char :=
  [hexDigit (b / 16), hexDigit (b % 16)]

/-- Hex encoding of a byte list (`Buffer.toString('hex')`). -/
def bytesToHex (bs : List Nat) : List Char :=
  (bs.map byteToHex).flatten

/-- Value of one hex digit character, `none` when not a hex digit. -/
def hexDigitVal (c : Char) : Option Nat :=
  if 48 ≤ c.toNat ∧ c.toNat ≤ 57 then some (c.toNat - 48)
  else if 97 ≤ c.toNat ∧ c.toNat ≤ 102 then some (c.toNat - 87)
  else none

/-- Hex decoding back to bytes (`Buffer.from(_, 'hex')`; Node truncates at the
first invalid pair and AES-GCM then rejects the malformed tag or ciphertext,
so both model and code end in an error for non-hex input). -/
def hexToBytes : List Char → Option (List Nat)
  | [] => some []
  | [_] => none
  | c₁ :: c₂ :: rest =>
    match hexDigitVal c₁, hexDigitVal c₂, hexToBytes rest with
    | some h, some l, some bs => some ((16 * h + l) :: bs)
    | _, _, _ => none

/-! ## String.split(':') -/

/-- `encryptedText.split(':')` on the character list of the envelope. -/
def splitOnColon : List Char → List (List Char)
  | [] => [[]]
  | c :: rest =>
    if c = ':' then [] :: splitOnColon rest
    else
      match splitOnColon rest with
      | [] => [[c]]
      | g :: gs => (c :: g) :: gs

/-! ## Token Vault (TokenManager.encrypt / decrypt)

`crypto.createCipheriv('aes-256-gcm', key, iv)` is CTR-mode keystream XOR
plus a GHASH-based authentication tag.  The keyed primitive (keystream byte
generator and tag function, both closed over the 32-byte key) is a parameter
of the model; the envelope layout `ivHex:tagHex:ctHex`, the part-count check
and the auth-tag verification are translated from TokenManager.ts. -/

/-- The keyed AES-256-GCM primitive: `ks iv i` is byte `i` of the CTR
keystream for nonce `iv`; `tag iv ct` is the GCM auth tag for nonce `iv`
and ciphertext `ct`.  Both produce bytes. -/
structure AeadPrimitive where
  ks : List Nat → Nat → Nat
  tag : List Nat → List Nat → List Nat
  ks_lt : ∀ iv i, ks iv i < 256
  tag_lt : ∀ iv ct, ∀ b ∈ tag iv ct, b < 256

/-- First `n` keystream bytes for nonce `iv`. -/
def keystream (p : AeadPrimitive) (iv : List Nat) (n : Nat) : List Nat :=
  (List.range n).map (p.ks iv)

/-- CTR-mode body: XOR the text with the keystream (used by both
`cipher.update/final` and `decipher.update/final`). -/
def gcmBody (p : AeadPrimitive) (iv text : List Nat) : List Nat :=
  List.zipWith (fun b k => b ^^^ k) text (keystream p iv text.length)

inductive CryptoError where
  | invalidFormat
  | invalidHex
  | authTagMismatch
deriving DecidableEq, Repr

namespace TokenManager

/-- `TokenManager.encrypt`: fresh `iv` (passed in, `crypto.randomBytes(16)`),
CTR encryption, then the envelope `iv.toString('hex') + ':' +
authTag.toString('hex') + ':' + encrypted`. -/
def encrypt (p : AeadPrimitive) (iv text : List Nat) : String :=
  let ct := gcmBody p iv text
  String.mk (bytesToHex iv ++ ':' :: (bytesToHex (p.tag iv ct) ++ ':' :: bytesToHex ct))

/-- `TokenManager.decrypt`: split on ':', require exactly three parts,
decode, verify the auth tag (`decipher.setAuthTag` + `final`), and only then
return the plaintext. -/
def decrypt (p : AeadPrimitive) (env : String) : Except CryptoError (List Nat) :=
  match splitOnColon env.data with
  | [ivH, tagH, ctH] =>
    match hexToBytes ivH, hexToBytes tagH, hexToBytes ctH with
    | some iv, some tagB, some ct =>
      if tagB = p.tag iv ct then Except.ok (gcmBody p iv ct)
      else Except.error CryptoError.authTagMismatch
    | _, _, _ => Except.error CryptoError.invalidHex
  | _ => Except.error CryptoError.invalidFormat

end TokenManager

/-! ## TokenManager.validateWebhookSignature -/

/-- `crypto.timingSafeEqual`: throws (`Except.error`) when the buffers have
different byte lengths, otherwise compares contents. -/
def timingSafeEqual (a b : List Nat) : Except String Bool :=
  if a.length = b.length then Except.ok (a = b)
  else Except.error "Input buffers must have the same byte length"

/-- Bytes of a string (`Buffer.from(s)`); codepoints stand in for the UTF-8
encoding, which agrees on the ASCII hex digests compared here. -/
def strBytes (s : String) : List Nat :=
  s.data.map Char.toNat

/-- `TokenManager.validateWebhookSignature`: compare the supplied signature
against the hex HMAC digest with `timingSafeEqual`, returning `false` from
the surrounding `try/catch` when the comparison throws.  `hmac alg secret
payload` is the keyed digest (byte list) of the Node HMAC primitive. -/
def validateWebhookSignature (hmac : String → String → String → List Nat)
    (payload signature secret : String) (alg : String) : Bool :=
  let expectedSignature := String.mk (bytesToHex (hmac alg secret payload))
  match timingSafeEqual (strBytes signature) (strBytes expectedSignature) with
  | Except.ok b => b
  | Except.error _ => false

/-! ## withAdvisoryLock (lib/schedulerLock) -/

inductive LockEvent where
  | run
  | release
deriving DecidableEq, Repr

/-- `tryAcquireLock`: the advisory-lock query either errors (`Except.error`,
caught and treated as not acquired) or reports whether the lock was taken. -/
def tryAcquireLock (acq : Except Unit Bool) : Bool :=
  match acq with
  | Except.ok b => b
  | Except.error _ => false

/-- `withAdvisoryLock`: acquire; if not acquired return `undefined` (`none`)
without running `fn`; otherwise run `fn` and release in a `finally` block
(`releaseLock` swallows its own errors), re-raising whatever `fn` threw.
The event list records, in order, that `fn` ran and that the lock was
released. -/
def withAdvisoryLock {E T : Type} (acq : Except Unit Bool) (fn : Except E T) :
    Except E (Option T) × List LockEvent :=
  if tryAcquireLock acq then
    match fn with
    | Except.ok v => (Except.ok (some v), [LockEvent.run, LockEvent.release])
    | Except.error e => (Except.error e, [LockEvent.run, LockEvent.release])
  else (Except.ok none, [])

/-! ## ConnectorManager: data model and OAuth callback (C1, C2)

Prisma rows and operations are modelled as explicit lists and pure state
transitions.  Timestamps are integers; `createdAt`/`updatedAt`/`syncFrequency`
/`webhookUrl` are bookkeeping fields not observed by any claim and are
omitted; the `id` of a created row is a fresh natural number. -/

structure IntegrationRow where
  id : Nat
  userId : String
  provider : String
  accountId : String
  accessToken : String
  refreshToken : Option String
  expiresAt : Option Int
  scopes : List String
  metadata : List (String × String)
  status : String
  lastSyncAt : Option Int
  deletedAt : Option Int
deriving DecidableEq, Repr

structure OAuthStateRow where
  state : String
  userId : String
  provider : String
  metadata : List (String × String)
  codeVerifier : Option String
  expiresAt : Int
deriving DecidableEq, Repr

structure Db where
  integrations : List IntegrationRow
  oauthStates : List OAuthStateRow
  nextId : Nat
deriving DecidableEq, Repr

/-- The `userId_provider_accountId` compound-unique key of an Integration. -/
def integrationKey (r : IntegrationRow) : String × String × String :=
  (r.userId, r.provider, r.accountId)

/-- The database-level unique constraint behind the
`userId_provider_accountId` upsert target: no two rows (soft-deleted or not)
share a key tuple. -/
def keyUnique (rows : List IntegrationRow) : Prop :=
  (rows.map integrationKey).Nodup

/-- Boolean match against the compound unique key. -/
def keyMatches (r : IntegrationRow) (u p a : String) : Bool :=
  r.userId = u && r.provider = p && r.accountId = a

/-- The fields written by the upsert in `handleOAuthCallback`. -/
structure UpsertData where
  accessToken : String
  refreshToken : Option String
  expiresAt : Option Int
  metadata : List (String × String)
  scopes : List String
deriving DecidableEq, Repr

/-- The `update` branch of the upsert: overwrite tokens, expiry, metadata and
scopes, reset `status` to `connected` and clear `deletedAt`. -/
def applyUpdate (r : IntegrationRow) (d : UpsertData) : IntegrationRow :=
  { r with
    accessToken := d.accessToken
    refreshToken := d.refreshToken
    expiresAt := d.expiresAt
    metadata := d.metadata
    scopes := d.scopes
    status := "connected"
    deletedAt := none }

/-- Prisma `update` on a unique selector: replace the first matching row. -/
def updateWhere : List IntegrationRow → (IntegrationRow → Bool) →
    (IntegrationRow → IntegrationRow) → List IntegrationRow
  | [], _, _ => []
  | r :: rs, q, f => if q r then f r :: rs else r :: updateWhere rs q f

/-- `prisma.integration.upsert` keyed on `userId_provider_accountId`:
update the unique matching row if present, otherwise insert a fresh row with
status `connected`.  Returns the new row list and the persisted row. -/
def upsertIntegration (rows : List IntegrationRow) (freshId : Nat)
    (u p a : String) (d : UpsertData) : List IntegrationRow × IntegrationRow :=
  match rows.find? (fun r => keyMatches r u p a) with
  | some r =>
    (updateWhere rows (fun x => keyMatches x u p a) (fun x => applyUpdate x d),
     applyUpdate r d)
  | none =>
    let r : IntegrationRow :=
      { id := freshId, userId := u, provider := p, accountId := a
        accessToken := d.accessToken, refreshToken := d.refreshToken
        expiresAt := d.expiresAt, scopes := d.scopes, metadata := d.metadata
        status := "connected", lastSyncAt := none, deletedAt := none }
    (rows ++ [r], r)

/-- JS object spread `{ ...a, ...b }`: keys of `b` win. -/
def mergeMeta (a b : List (String × String)) : List (String × String) :=
  a.filter (fun kv => b.all (fun kv2 => kv2.1 ≠ kv.1)) ++ b

/-- Result of `connector.exchangeCodeForTokens`. -/
structure TokenData where
  accessToken : String
  refreshToken : Option String
  expiresAt : Option Int
  accountId : String
  metadata : List (String × String)
deriving DecidableEq, Repr

inductive CbError where
  | invalidState
  | exchangeFailed
  | missingAccountId
deriving DecidableEq, Repr

/-- Externally visible steps of `handleOAuthCallback`, recorded in order. -/
inductive CbEvent where
  | exchange
  | upsert
  | cleanupState
deriving DecidableEq, Repr

structure CbOutcome where
  db : Db
  result : Except CbError IntegrationRow
  events : List CbEvent
deriving Repr

/-- `ConnectorManager.validateOAuthState`: look up the row by `state`,
`none` when missing or past expiry (`expiresAt < new Date()`); errors in
that lookup are caught and also yield `none`. -/
def validateOAuthState (now : Int) (db : Db) (state : String) :
    Option OAuthStateRow :=
  match db.oauthStates.find? (fun r => r.state = state) with
  | none => none
  | some r => if r.expiresAt < now then none else some r

/-- `ConnectorManager.cleanupOAuthState`: delete the consumed row, ignoring
"not found". -/
def cleanupOAuthState (db : Db) (state : String) : Db :=
  { db with oauthStates := db.oauthStates.filter (fun r => r.state ≠ state) }

/-- `ConnectorManager.handleOAuthCallback`.  `exchange code verifier` is the
connector's `exchangeCodeForTokens` oracle (`none` = the exchange threw);
`encrypt` is the Token Vault; `scopes` is `connector.getOAuthConfig().scopes`.
Mirrors the source order: validate state, exchange, require `accountId`,
encrypt, upsert keyed on `(userId, provider, accountId)`, then delete the
OAuth state row.  (The trailing Instant-Insights block only touches the user
table inside its own try/catch and is not modelled.) -/
def handleOAuthCallback (exchange : String → Option String → Option TokenData)
    (encrypt : String → String) (scopes : List String) (now : Int)
    (db : Db) (provider code state : String)
    (callbackMetadata : List (String × String)) : CbOutcome :=
  match validateOAuthState now db state with
  | none => { db := db, result := Except.error CbError.invalidState, events := [] }
  | some st =>
    match exchange code st.codeVerifier with
    | none =>
      { db := db, result := Except.error CbError.exchangeFailed
        events := [CbEvent.exchange] }
    | some td =>
      if td.accountId = "" then
        { db := db, result := Except.error CbError.missingAccountId
          events := [CbEvent.exchange] }
      else
        let d : UpsertData :=
          { accessToken := encrypt td.accessToken
            refreshToken := td.refreshToken.map encrypt
            expiresAt := td.expiresAt
            metadata := mergeMeta (mergeMeta st.metadata callbackMetadata) td.metadata
            scopes := scopes }
        let up := upsertIntegration db.integrations db.nextId st.userId provider td.accountId d
        let db1 : Db :=
          { integrations := up.1, oauthStates := db.oauthStates, nextId := db.nextId + 1 }
        { db := cleanupOAuthState db1 state
          result := Except.ok up.2
          events := [CbEvent.exchange, CbEvent.upsert, CbEvent.cleanupState] }

/-! ## SyncLog and the incremental watermark (C8) -/

structure SyncLogRow where
  integrationId : Nat
  dataType : String
  status : String
  recordsCount : Nat
  errorMessage : Option String
  completedAt : Int
deriving DecidableEq, Repr

/-- `findFirst` under `orderBy: { completedAt: 'desc' }`: the first row of
the list sorted by descending `completedAt` (storage order breaks ties). -/
def findFirstByCompletedAtDesc (rows : List SyncLogRow) : Option SyncLogRow :=
  rows.foldl
    (fun acc r =>
      match acc with
      | none => some r
      | some b => if b.completedAt < r.completedAt then some r else some b)
    none

/-- `BaseConnector.getLastSyncTime`: `completedAt` of the most recent
`success` SyncLog for this (integration, dataType), `null` when none. -/
def getLastSyncTime (logs : List SyncLogRow) (iid : Nat) (dataType : String) :
    Option Int :=
  (findFirstByCompletedAtDesc
    (logs.filter
      (fun l => l.integrationId == iid && l.dataType == dataType && l.status == "success"))).map
    (fun l => l.completedAt)

/-- Modelled from the spec: the watermark is "the completion time of the most
recent successful SyncLog for that data type".  Stated independently of
`getLastSyncTime` (as the maximum of the matching completion times) for the
refinement proof. -/
def specWatermark (logs : List SyncLogRow) (iid : Nat) (dataType : String) :
    Option Int :=
  match (logs.filter
      (fun l => l.integrationId == iid && l.dataType == dataType && l.status == "success")).map
      (fun l => l.completedAt) with
  | [] => none
  | t :: ts => some (ts.foldl max t)

/-- Stand-in for `Date.toISOString()` (injective rendering of a time). -/
def isoString (t : Int) : String :=
  "iso:" ++ toString t

/-- Variables of one `syncOrders` GraphQL request. -/
structure ShopifyOrdersVariables where
  first : Nat
  after : Option String
  updatedAtMin : Option String
deriving DecidableEq, Repr

/-- Variables of one `syncProducts` GraphQL request (the query takes no
update-time filter at all). -/
structure ShopifyProductsVariables where
  first : Nat
  after : Option String
deriving DecidableEq, Repr

/-- Query params of one Klaviyo list request. -/
structure KlaviyoListParams where
  pageSize : Nat
  filter : Option String
  sort : Option String
deriving DecidableEq, Repr

/-- `ShopifyConnector.syncOrders`: reads the watermark via
`getLastSyncTime('orders')` and spreads it into the request variables. -/
def shopifySyncOrdersRequest (logs : List SyncLogRow) (iid : Nat)
    (cursor : Option String) : ShopifyOrdersVariables :=
  { first := 50, after := cursor
    updatedAtMin := (getLastSyncTime logs iid "orders").map isoString }

/-- `ShopifyConnector.syncProducts`: never consults the SyncLog; the request
carries only page size and cursor. -/
def shopifySyncProductsRequest (logs : List SyncLogRow) (iid : Nat)
    (cursor : Option String) : ShopifyProductsVariables :=
  { first := 50, after := cursor }

/-- `KlaviyoConnector.syncCampaigns`: fixed created-after-2023 filter,
independent of the SyncLog. -/
def klaviyoCampaignsParams (logs : List SyncLogRow) (iid : Nat) :
    KlaviyoListParams :=
  { pageSize := 50
    filter := some "greater-than(created,2023-01-01T00:00:00Z)", sort := none }

/-- `KlaviyoConnector.syncFlows`: no filter. -/
def klaviyoFlowsParams (logs : List SyncLogRow) (iid : Nat) : KlaviyoListParams :=
  { pageSize := 50, filter := none, sort := none }

/-- `KlaviyoConnector.syncMetrics`: no filter. -/
def klaviyoMetricsParams (logs : List SyncLogRow) (iid : Nat) : KlaviyoListParams :=
  { pageSize := 100, filter := none, sort := none }

/-- `KlaviyoConnector.syncEvents`: watermark via `getLastSyncTime('events')`
applied as a `greater-than(datetime, …)` filter. -/
def klaviyoEventsParams (logs : List SyncLogRow) (iid : Nat) : KlaviyoListParams :=
  { pageSize := 100
    filter := (getLastSyncTime logs iid "events").map
      (fun t => "greater-than(datetime," ++ isoString t ++ ")")
    sort := some "-datetime" }

/-! ## Pagination loops (C7) -/

/-- One Shopify GraphQL page: record count plus `pageInfo`. -/
structure ShopifyPage where
  items : Nat
  hasNextPage : Bool
  endCursor : String
deriving DecidableEq, Repr

/-- The `while (hasNextPage)` loop of `syncOrders`/`syncProducts`:
`pages i` is the provider's i-th page response.  `fuel` bounds how many
requests the model may issue; the source has no such bound — the loop
continues for as long as the provider keeps answering `hasNextPage: true`.
`none` means the loop was still running when the fuel ran out; `some total`
is the record count on normal exit. -/
def shopifyPageLoop (pages : Nat → ShopifyPage) :
    Nat → Nat → Nat → Option Nat
  | 0, _, _ => none
  | fuel + 1, i, total =>
    let pg := pages i
    if pg.hasNextPage then shopifyPageLoop pages fuel (i + 1) (total + pg.items)
    else some (total + pg.items)

/-- The `while (nextUrl)` loop of `syncCampaigns`/`syncFlows`/`syncEvents`:
`pages i = (count, links.next)` for the i-th response; the loop continues for
as long as a `next` link is present.  Again no bound in the source. -/
def klaviyoPageLoop (pages : Nat → Nat × Option String) :
    Nat → Nat → Nat → Option Nat
  | 0, _, _ => none
  | fuel + 1, i, total =>
    let pg := pages i
    match pg.2 with
    | some _ => klaviyoPageLoop pages fuel (i + 1) (total + pg.1)
    | none => some (total + pg.1)

/-- A provider that answers every request with another full page. -/
def alwaysMorePages : Nat → ShopifyPage :=
  fun _ => { items := 1, hasNextPage := true, endCursor := "c" }

/-- Total records on the first `n` pages. -/
def pagesItemSum (pages : Nat → ShopifyPage) : Nat → Nat
  | 0 => 0
  | n + 1 => pagesItemSum pages n + (pages n).items

/-! ## sync() error containment (C5) -/

structure SyncResult where
  dataType : String
  recordsCount : Nat
  status : String
  errorMessage : Option String
deriving DecidableEq, Repr

/-- The try/catch skeleton of one data-type routine (`syncOrders`,
`syncCampaigns`, …): the body either completes with a record count or
throws, and a thrown error is converted into an `error`-status result for
that data type only.  Prisma writes (`logSync`) are modelled as total. -/
def runRoutine (dataType : String) (body : Except String Nat) : SyncResult :=
  match body with
  | Except.ok n =>
    { dataType := dataType, recordsCount := n, status := "success", errorMessage := none }
  | Except.error e =>
    { dataType := dataType, recordsCount := 0, status := "error", errorMessage := some e }

/-- The entry appended by the top-level catch of `sync()`. -/
def syncErrorEntry (e : String) : SyncResult :=
  { dataType := "sync_error", recordsCount := 0, status := "error", errorMessage := some e }

/-- `ShopifyConnector.sync`: initialize the GraphQL client (this can throw —
it decrypts the access token), push the three routine results, then update
the integration status to `connected` (the provider-independent structural
step, which can also reject).  The top-level catch sets status `error` and
pushes one `sync_error` entry; the results pushed so far are returned as-is.
Second component of the result: the integration status written. -/
def shopifySync (init : Except String Unit)
    (orders products customers : Except String Nat)
    (updateConn : Except String Unit) : List SyncResult × String :=
  match init with
  | Except.error e => ([syncErrorEntry e], "error")
  | Except.ok _ =>
    let rs := [runRoutine "orders" orders, runRoutine "products" products,
               runRoutine "customers" customers]
    match updateConn with
    | Except.ok _ => (rs, "connected")
    | Except.error e => (rs ++ [syncErrorEntry e], "error")

/-- `KlaviyoConnector.sync`: same skeleton, four routines, no separate
initialization step before the first routine. -/
def klaviyoSync (campaigns flows metrics events : Except String Nat)
    (updateConn : Except String Unit) : List SyncResult × String :=
  let rs := [runRoutine "campaigns" campaigns, runRoutine "flows" flows,
             runRoutine "metrics" metrics, runRoutine "events" events]
  match updateConn with
  | Except.ok _ => (rs, "connected")
  | Except.error e => (rs ++ [syncErrorEntry e], "error")

/-! ## The 401 response interceptor (C6) -/

/-- The axios response interceptor of `BaseConnector` together with
`handleTokenRefresh`, for a non-`temp` integration without `skipAuthRefresh`.
`provider a` is the HTTP status of the a-th transmission of the request;
`refreshOk r` tells whether the r-th `refreshAccessToken` call succeeds.
On a 401 the interceptor refreshes and re-issues the request — and the
re-issued request passes through the same interceptor.  A failed refresh
sets the integration status to `expired` and rejects with the original 401.
`fuel` bounds the modelled transmissions (the source has no bound).
Returns (outcome — `none` if fuel ran out, refresh attempts made,
integration marked expired). -/
def interceptorRun (provider : Nat → Nat) (refreshOk : Nat → Bool) :
    Nat → Nat → Nat → Option (Except Nat Nat) × Nat × Bool
  | 0, _, r => (none, r, false)
  | fuel + 1, a, r =>
    let st := provider a
    if st = 401 then
      if refreshOk r then interceptorRun provider refreshOk fuel (a + 1) (r + 1)
      else (some (Except.error 401), r + 1, true)
    else if 200 ≤ st && st < 300 then (some (Except.ok st), r, false)
    else (some (Except.error st), r, false)

/-! ## GET /integrations/:provider/status (C9) -/

structure StatusResponse where
  httpStatus : Nat
  connected : Bool
  provider : String
  id : Option Nat
  status : Option String
  lastSyncAt : Option Int
deriving DecidableEq, Repr

/-- The status route handler after authentication: `findFirst` over the
user's non-soft-deleted integrations for the provider (the source orders by
`updatedAt` desc, which only affects which matching row is picked, not
whether one is found); absent → HTTP 200 `{connected: false, provider}`. -/
def integrationStatusRoute (rows : List IntegrationRow)
    (userId provider : String) : StatusResponse :=
  match rows.find?
      (fun r => r.userId == userId && r.provider == provider && r.deletedAt.isNone) with
  | none =>
    { httpStatus := 200, connected := false, provider := provider
      id := none, status := none, lastSyncAt := none }
  | some r =>
    { httpStatus := 200
      connected := r.status == "connected" && r.deletedAt.isNone
      provider := r.provider, id := some r.id, status := some r.status
      lastSyncAt := r.lastSyncAt }

/-! ## Concrete fixtures used by witnesses -/

/-- A concrete instantiation of the keyed AEAD primitive. -/
def sampleAead : AeadPrimitive where
  ks := fun _ i => (i * 37 + 11) % 256
  tag := fun iv ct => [(iv.length + ct.length * 3) % 256]
  ks_lt := fun _ i => Nat.mod_lt _ (by norm_num)
  tag_lt := by
    intro iv ct b hb
    simp only [List.mem_singleton] at hb
    exact hb ▸ Nat.mod_lt _ (by norm_num)

/-- A concrete token-exchange oracle: both codes resolve to the same
provider account. -/
def exW : String → Option String → Option TokenData :=
  fun code _ =>
    some { accessToken := "A" ++ code, refreshToken := none, expiresAt := none
           accountId := "shop1", metadata := [] }

/-- A concrete starting database with two pending OAuth states. -/
def dbW : Db where
  integrations := []
  oauthStates :=
    [ { state := "s1", userId := "u", provider := "shopify", metadata := []
        codeVerifier := none, expiresAt := 100 },
      { state := "s2", userId := "u", provider := "shopify", metadata := []
        codeVerifier := none, expiresAt := 100 } ]
  nextId := 0

/-! ## Helper lemmas: hex, split, XOR -/

theorem hexDigitVal_hexDigit : ∀ n, n < 16 → hexDigitVal (hexDigit n) = some n := by
  decide

theorem hexDigit_ne_colon : ∀ n, n < 16 → hexDigit n ≠ ':' := by
  decide

theorem hexToBytes_bytesToHex :
    ∀ bs : List Nat, (∀ b ∈ bs, b < 256) → hexToBytes (bytesToHex bs) = some bs := by
  intro bs
  induction bs with
  | nil => intro _; rfl
  | cons b t ih =>
    intro h
    have hb : b < 256 := h b (List.mem_cons_self _ _)
    have ht : ∀ x ∈ t, x < 256 := fun x hx => h x (List.mem_cons_of_mem _ hx)
    have hdiv : b / 16 < 16 := (Nat.div_lt_iff_lt_mul (by norm_num)).mpr (by omega)
    have hmod : b % 16 < 16 := Nat.mod_lt _ (by norm_num)
    have hrw : bytesToHex (b :: t) = hexDigit (b / 16) :: hexDigit (b % 16) :: bytesToHex t := by
      simp [bytesToHex, byteToHex]
    rw [hrw]
    simp only [hexToBytes, hexDigitVal_hexDigit _ hdiv, hexDigitVal_hexDigit _ hmod, ih ht]
    rw [Nat.div_add_mod b 16]

theorem colon_not_mem_bytesToHex :
    ∀ bs : List Nat, (∀ b ∈ bs, b < 256) → ':' ∉ bytesToHex bs := by
  intro bs
  induction bs with
  | nil => intro _ hmem; simp [bytesToHex] at hmem
  | cons b t ih =>
    intro h hmem
    have hb : b < 256 := h b (List.mem_cons_self _ _)
    have ht : ∀ x ∈ t, x < 256 := fun x hx => h x (List.mem_cons_of_mem _ hx)
    have hdiv : b / 16 < 16 := (Nat.div_lt_iff_lt_mul (by norm_num)).mpr (by omega)
    have hmod : b % 16 < 16 := Nat.mod_lt _ (by norm_num)
    simp only [bytesToHex, byteToHex, List.map_cons, List.flatten_cons, List.cons_append,
      List.nil_append, List.mem_cons] at hmem
    rcases hmem with h1 | h2 | h3
    · exact hexDigit_ne_colon _ hdiv h1.symm
    · exact hexDigit_ne_colon _ hmod h2.symm
    · exact ih ht (by simpa [bytesToHex] using h3)

theorem splitOnColon_no_colon :
    ∀ l : List Char, ':' ∉ l → splitOnColon l = [l] := by
  intro l
  induction l with
  | nil => intro _; rfl
  | cons c t ih =>
    intro h
    have hc : c ≠ ':' := fun hc => h (hc ▸ List.mem_cons_self _ _)
    have ht : ':' ∉ t := fun hm => h (List.mem_cons_of_mem _ hm)
    simp [splitOnColon, hc, ih ht]

theorem splitOnColon_append :
    ∀ (a b : List Char), ':' ∉ a → splitOnColon (a ++ ':' :: b) = a :: splitOnColon b := by
  intro a b
  induction a with
  | nil => intro _; simp [splitOnColon]
  | cons c t ih =>
    intro h
    have hc : c ≠ ':' := fun hc => h (hc ▸ List.mem_cons_self _ _)
    have ht : ':' ∉ t := fun hm => h (List.mem_cons_of_mem _ hm)
    simp [splitOnColon, hc, ih ht]

theorem zipWith_xor_invol :
    ∀ (t ks : List Nat), t.length = ks.length →
      List.zipWith (fun b k => b ^^^ k) (List.zipWith (fun b k => b ^^^ k) t ks) ks = t := by
  intro t
  induction t with
  | nil => intro ks _; simp
  | cons a t ih =>
    intro ks hl
    cases ks with
    | nil => simp at hl
    | cons k ks =>
      simp only [List.zipWith_cons_cons, List.cons.injEq]
      refine ⟨?_, ih ks (by simpa using hl)⟩
      rw [Nat.xor_assoc, Nat.xor_self, Nat.xor_zero]

theorem zipWith_xor_lt :
    ∀ (t ks : List Nat), (∀ b ∈ t, b < 256) → (∀ k ∈ ks, k < 256) →
      ∀ x ∈ List.zipWith (fun b k => b ^^^ k) t ks, x < 256 := by
  intro t
  induction t with
  | nil => intro ks _ _ x hx; simp at hx
  | cons a t ih =>
    intro ks h1 h2 x hx
    cases ks with
    | nil => simp at hx
    | cons k ks =>
      simp only [List.zipWith_cons_cons, List.mem_cons] at hx
      rcases hx with hx | hx
      · subst hx
        have h256 : (256 : Nat) = 2 ^ 8 := by norm_num
        rw [h256]
        exact Nat.xor_lt_two_pow (by rw [← h256]; exact h1 a (List.mem_cons_self _ _))
          (by rw [← h256]; exact h2 k (List.mem_cons_self _ _))
      · exact ih ks (fun b hb => h1 b (List.mem_cons_of_mem _ hb))
          (fun b hb => h2 b (List.mem_cons_of_mem _ hb)) x hx

theorem keystream_lt (p : AeadPrimitive) (iv : List Nat) (n : Nat) :
    ∀ k ∈ keystream p iv n, k < 256 := by
  intro k hk
  simp only [keystream, List.mem_map] at hk
  obtain ⟨i, _, hi⟩ := hk
  exact hi ▸ p.ks_lt iv i

theorem gcmBody_length (p : AeadPrimitive) (iv t : List Nat) :
    (gcmBody p iv t).length = t.length := by
  simp [gcmBody, keystream]

theorem gcmBody_lt (p : AeadPrimitive) (iv t : List Nat) (h : ∀ b ∈ t, b < 256) :
    ∀ b ∈ gcmBody p iv t, b < 256 :=
  zipWith_xor_lt t (keystream p iv t.length) h (keystream_lt p iv t.length)

theorem gcmBody_invol (p : AeadPrimitive) (iv t : List Nat) :
    gcmBody p iv (gcmBody p iv t) = t := by
  show List.zipWith _ _ (keystream p iv (gcmBody p iv t).length) = t
  rw [gcmBody_length]
  exact zipWith_xor_invol t (keystream p iv t.length) (by simp [keystream])

theorem decrypt_encrypt (p : AeadPrimitive) (iv text : List Nat)
    (hiv : ∀ b ∈ iv, b < 256) (htext : ∀ b ∈ text, b < 256) :
    TokenManager.decrypt p (TokenManager.encrypt p iv text) = Except.ok text := by
  have hct : ∀ b ∈ gcmBody p iv text, b < 256 := gcmBody_lt p iv text htext
  have htag : ∀ b ∈ p.tag iv (gcmBody p iv text), b < 256 := p.tag_lt iv _
  show TokenManager.decrypt p (String.mk (bytesToHex iv ++ ':' ::
      (bytesToHex (p.tag iv (gcmBody p iv text)) ++ ':' :: bytesToHex (gcmBody p iv text)))) =
    Except.ok text
  unfold TokenManager.decrypt
  have hdata : (String.mk (bytesToHex iv ++ ':' ::
      (bytesToHex (p.tag iv (gcmBody p iv text)) ++ ':' :: bytesToHex (gcmBody p iv text)))).data =
      bytesToHex iv ++ ':' ::
      (bytesToHex (p.tag iv (gcmBody p iv text)) ++ ':' :: bytesToHex (gcmBody p iv text)) := rfl
  rw [hdata, splitOnColon_append _ _ (colon_not_mem_bytesToHex iv hiv),
    splitOnColon_append _ _ (colon_not_mem_bytesToHex _ htag),
    splitOnColon_no_colon _ (colon_not_mem_bytesToHex _ hct)]
  simp only [hexToBytes_bytesToHex iv hiv, hexToBytes_bytesToHex _ htag,
    hexToBytes_bytesToHex _ hct, if_pos rfl]
  rw [gcmBody_invol]
  simp

theorem decrypt_ok_inv (p : AeadPrimitive) (env : String) (out : List Nat)
    (h : TokenManager.decrypt p env = Except.ok out) :
    ∃ ivH tagH ctH ivB tagB ctB,
      splitOnColon env.data = [ivH, tagH, ctH] ∧
      hexToBytes ivH = some ivB ∧ hexToBytes tagH = some tagB ∧
      hexToBytes ctH = some ctB ∧ tagB = p.tag ivB ctB ∧ out = gcmBody p ivB ctB := by
  unfold TokenManager.decrypt at h
  split at h
  next ivH tagH ctH hs =>
    split at h
    next ivB tagB ctB hiv htag hct =>
      split at h
      next hv =>
        exact ⟨ivH, tagH, ctH, ivB, tagB, ctB, hs, hiv, htag, hct, hv,
          (Except.ok.injEq _ _ ▸ h).symm⟩
      next => simp at h
    next => simp at h
  next => simp at h

theorem charToNat_injective : Function.Injective Char.toNat := by
  intro a b h
  exact Char.ext (UInt32.toNat.inj h)

/-- Claim C3: Token Vault round trip and tamper rejection — for every
plaintext (byte list), `decrypt (encrypt s) = s` under the same keyed
primitive, and `decrypt` returns a plaintext only for an envelope that
splits into exactly three colon-separated parts whose hex parts decode and
whose GCM auth tag verifies against the recomputed tag; every other
envelope (wrong part count, undecodable part, or tag mismatch — e.g. any
flipped byte in the auth-tag region, or a tag made under a different key)
yields an error, never an incorrect plaintext. -/
theorem tokenVault_roundtrip_and_tamper_rejection (p : AeadPrimitive)
    (iv text : List Nat) (env : String)
    (hiv : ∀ b ∈ iv, b < 256) (htext : ∀ b ∈ text, b < 256) :
    TokenManager.decrypt p (TokenManager.encrypt p iv text) = Except.ok text ∧
    (∀ out, TokenManager.decrypt p env = Except.ok out →
      ∃ ivH tagH ctH ivB tagB ctB,
        splitOnColon env.data = [ivH, tagH, ctH] ∧
        hexToBytes ivH = some ivB ∧ hexToBytes tagH = some tagB ∧
        hexToBytes ctH = some ctB ∧ tagB = p.tag ivB ctB ∧
        out = gcmBody p ivB ctB) :=
  ⟨decrypt_encrypt p iv text hiv htext,
   fun out h => decrypt_ok_inv p env out h⟩

theorem tokenVault_roundtrip_and_tamper_rejection_witness :
    TokenManager.decrypt sampleAead (TokenManager.encrypt sampleAead [0, 1] [10, 20, 30]) =
      Except.ok [10, 20, 30] :=
  (tokenVault_roundtrip_and_tamper_rejection sampleAead [0, 1] [10, 20, 30] "x"
    (by decide) (by decide)).1

/-- Claim C4: `withAdvisoryLock name fn` runs `fn` if and only if the lock
was acquired; when the acquire query reports false or itself errors, it
returns `undefined` (`none`) without running `fn`; and whenever `fn` runs,
the lock is released afterwards even if `fn` throws (the thrown error is
re-raised after the release). -/
theorem withAdvisoryLock_spec {E T : Type} (acq : Except Unit Bool) (fn : Except E T) :
    (LockEvent.run ∈ (withAdvisoryLock acq fn).2 ↔ tryAcquireLock acq = true) ∧
    (tryAcquireLock acq = false →
      withAdvisoryLock acq fn = (Except.ok none, [])) ∧
    (∀ e, fn = Except.error e → tryAcquireLock acq = true →
      (withAdvisoryLock acq fn).1 = Except.error e ∧
        LockEvent.release ∈ (withAdvisoryLock acq fn).2) ∧
    (LockEvent.run ∈ (withAdvisoryLock acq fn).2 →
      LockEvent.release ∈ (withAdvisoryLock acq fn).2) := by
  unfold withAdvisoryLock
  cases hacq : tryAcquireLock acq with
  | true => cases fn with
    | ok v => simp
    | error e => simp
  | false => simp

theorem withAdvisoryLock_spec_witness :
    (@withAdvisoryLock String Nat (Except.ok true) (Except.error "boom")).1 =
        Except.error "boom" ∧
      LockEvent.release ∈
        (@withAdvisoryLock String Nat (Except.ok true) (Except.error "boom")).2 :=
  (withAdvisoryLock_spec (Except.ok true) (Except.error "boom")).2.2.1 "boom" rfl rfl

/-- Claim C10: `TokenManager.validateWebhookSignature` is total: it returns
`true` exactly when the supplied signature equals the expected hex HMAC
digest, and in particular returns `false` — rather than propagating the
`timingSafeEqual` length error — whenever the signature's length differs
from the digest's. -/
theorem validateWebhookSignature_total (hmac : String → String → String → List Nat)
    (payload signature secret alg : String) :
    validateWebhookSignature hmac payload signature secret alg =
      decide (signature = String.mk (bytesToHex (hmac alg secret payload))) ∧
    (signature.length ≠ (String.mk (bytesToHex (hmac alg secret payload))).length →
      validateWebhookSignature hmac payload signature secret alg = false) := by
  have hinj : ∀ s t : String, strBytes s = strBytes t → s = t := by
    intro s t h
    have hd := List.map_injective_iff.mpr charToNat_injective h
    cases s; cases t
    exact congrArg String.mk hd
  have hlen : ∀ s : String, (strBytes s).length = s.length := by
    intro s; simp [strBytes]
  have hmain : validateWebhookSignature hmac payload signature secret alg =
      decide (signature = String.mk (bytesToHex (hmac alg secret payload))) := by
    show (match timingSafeEqual (strBytes signature)
        (strBytes (String.mk (bytesToHex (hmac alg secret payload)))) with
      | Except.ok b => b
      | Except.error _ => false) = _
    unfold timingSafeEqual
    by_cases hl : (strBytes signature).length =
        (strBytes (String.mk (bytesToHex (hmac alg secret payload)))).length
    · rw [if_pos hl]
      show decide (strBytes signature =
        strBytes (String.mk (bytesToHex (hmac alg secret payload)))) = _
      by_cases he : signature = String.mk (bytesToHex (hmac alg secret payload))
      · rw [he, decide_eq_true rfl, decide_eq_true rfl]
      · have h2 : strBytes signature ≠
            strBytes (String.mk (bytesToHex (hmac alg secret payload))) :=
          fun hc => he (hinj _ _ hc)
        rw [decide_eq_false h2, decide_eq_false he]
    · rw [if_neg hl]
      show false = _
      have he : signature ≠ String.mk (bytesToHex (hmac alg secret payload)) := by
        intro hc; exact hl (by rw [hc])
      rw [decide_eq_false he]
  refine ⟨hmain, fun hne => ?_⟩
  rw [hmain]
  have he : signature ≠ String.mk (bytesToHex (hmac alg secret payload)) := by
    intro hc; exact hne (by rw [hc])
  rw [decide_eq_false he]

theorem validateWebhookSignature_total_witness :
    validateWebhookSignature (fun _ _ _ => [0, 255]) "payload" "short" "secret" "sha256" = false :=
  (validateWebhookSignature_total (fun _ _ _ => [0, 255]) "payload" "short" "secret" "sha256").2
    (by decide)

/-- Claim C5: `sync()` never throws — each data-type routine's failure is
captured as an `error`-status entry for that data type, leaving the other
routines' entries intact, and a structural failure (GraphQL client
initialization for Shopify; the post-routine status write for either
connector) is caught, sets the integration status to `error`, and
contributes exactly one `sync_error` entry instead of propagating. -/
theorem sync_never_throws_collects_failures
    (o p c k₁ k₂ k₃ k₄ : Except String Nat) (u : Except String Unit)
    (e dt msg : String) (n : Nat) :
    shopifySync (Except.error e) o p c u = ([syncErrorEntry e], "error") ∧
    shopifySync (Except.ok ()) o p c (Except.ok ()) =
      ([runRoutine "orders" o, runRoutine "products" p, runRoutine "customers" c],
        "connected") ∧
    shopifySync (Except.ok ()) o p c (Except.error e) =
      ([runRoutine "orders" o, runRoutine "products" p, runRoutine "customers" c,
        syncErrorEntry e], "error") ∧
    klaviyoSync k₁ k₂ k₃ k₄ (Except.ok ()) =
      ([runRoutine "campaigns" k₁, runRoutine "flows" k₂, runRoutine "metrics" k₃,
        runRoutine "events" k₄], "connected") ∧
    klaviyoSync k₁ k₂ k₃ k₄ (Except.error e) =
      ([runRoutine "campaigns" k₁, runRoutine "flows" k₂, runRoutine "metrics" k₃,
        runRoutine "events" k₄, syncErrorEntry e], "error") ∧
    runRoutine dt (Except.error msg) =
      { dataType := dt, recordsCount := 0, status := "error", errorMessage := some msg } ∧
    runRoutine dt (Except.ok n) =
      { dataType := dt, recordsCount := n, status := "success", errorMessage := none } ∧
    (syncErrorEntry e).dataType = "sync_error" ∧ (syncErrorEntry e).status = "error" :=
  ⟨rfl, rfl, rfl, rfl, rfl, rfl, rfl, rfl, rfl⟩

/-- Counterexample to claim C6: with a provider that answers every
transmission with HTTP 401 and token refreshes that always succeed (exactly
Shopify's `refreshAccessToken`, which returns the stored token and cannot
fail), the interceptor has performed three token refreshes within the first
three transmissions of a single request and is still retrying — the source
carries no single-retry guard, so "exactly one refresh, one retry" is
false. -/
theorem interceptor_second_refresh_counterexample :
    interceptorRun (fun _ => 401) (fun _ => true) 3 0 0 = (none, 3, false) := rfl

/-- Claim C6 (amended): each 401 response triggers one token refresh and one
re-issue of the request, but the re-issued request passes through the same
interceptor, so the refresh-and-retry cycle repeats for as long as the
provider keeps returning 401 and refresh keeps succeeding (no bound); when a
refresh fails, the integration is marked `expired` and the original 401 is
surfaced with no further retry. -/
theorem interceptor_refresh_retry_behavior (provider : Nat → Nat)
    (refreshOk : Nat → Bool) (fuel a r : Nat) :
    (provider a = 401 → refreshOk r = false →
      interceptorRun provider refreshOk (fuel + 1) a r =
        (some (Except.error 401), r + 1, true)) ∧
    (provider a = 401 → refreshOk r = true →
      200 ≤ provider (a + 1) → provider (a + 1) < 300 →
      interceptorRun provider refreshOk (fuel + 2) a r =
        (some (Except.ok (provider (a + 1))), r + 1, false)) ∧
    ((∀ i, provider i = 401) → (∀ i, refreshOk i = true) →
      ∀ f s t, interceptorRun provider refreshOk f s t = (none, t + f, false)) := by
  refine ⟨?_, ?_, ?_⟩
  · intro h401 href
    simp [interceptorRun, h401, href]
  · intro h401 href hlo hhi
    have hne : ¬(provider (a + 1) = 401) := by omega
    have hlo2 : (200 ≤ provider (a + 1)) = True := by simp [hlo]
    have hhi2 : (provider (a + 1) < 300) = True := by simp [hhi]
    simp [interceptorRun, h401, href, hne, hlo2, hhi2]
  · intro hp hr f
    induction f with
    | zero => intro s t; simp [interceptorRun]
    | succ m ih =>
      intro s t
      have := ih (s + 1) (t + 1)
      simp only [interceptorRun, hp s, hr t, if_pos rfl, if_pos]
      rw [this]
      refine Prod.ext rfl (Prod.ext ?_ rfl)
      show t + 1 + m = t + (m + 1)
      omega

theorem interceptor_refresh_retry_behavior_witness :
    interceptorRun (fun _ => 401) (fun _ => false) 1 0 0 =
      (some (Except.error 401), 1, true) :=
  (interceptor_refresh_retry_behavior (fun _ => 401) (fun _ => false) 0 0 0).1 rfl rfl

theorem shopifyPageLoop_alwaysMore :
    ∀ fuel i t, shopifyPageLoop alwaysMorePages fuel i t = none := by
  intro fuel
  induction fuel with
  | zero => intro i t; rfl
  | succ f ih =>
    intro i t
    simp only [shopifyPageLoop, alwaysMorePages, if_pos rfl]
    exact ih (i + 1) (t + 1)

/-- Counterexample to claim C7: a provider that answers every request with
another page (`hasNextPage: true`) keeps the `while (hasNextPage)` loop of
`syncOrders`/`syncProducts` running forever — there is no maximum-iteration
safety valve, so the routine never returns for this response sequence. -/
theorem pagination_no_safety_valve_counterexample :
    ¬ ∃ fuel total, shopifyPageLoop alwaysMorePages fuel 0 0 = some total := by
  rintro ⟨fuel, total, h⟩
  rw [shopifyPageLoop_alwaysMore] at h
  exact Option.noConfusion h

theorem shopifyPageLoop_some_inv (pages : Nat → ShopifyPage) :
    ∀ fuel i t total, shopifyPageLoop pages fuel i t = some total →
      ∃ n, (pages n).hasNextPage = false := by
  intro fuel
  induction fuel with
  | zero => intro i t total h; exact Option.noConfusion h
  | succ f ih =>
    intro i t total h
    by_cases hn : (pages i).hasNextPage
    · simp only [shopifyPageLoop, if_pos hn] at h
      exact ih (i + 1) (t + (pages i).items) total h
    · exact ⟨i, by simpa using hn⟩

theorem shopifyPageLoop_terminates (pages : Nat → ShopifyPage) :
    ∀ d i t, (pages (i + d)).hasNextPage = false →
      ∃ fuel total, shopifyPageLoop pages fuel i t = some total := by
  intro d
  induction d with
  | zero =>
    intro i t h
    refine ⟨1, t + (pages i).items, ?_⟩
    simp only [shopifyPageLoop]
    rw [if_neg (by simp_all)]
  | succ m ih =>
    intro i t h
    by_cases hn : (pages i).hasNextPage
    · obtain ⟨f, tot, hf⟩ := ih (i + 1) (t + (pages i).items)
        (by have : i + 1 + m = i + (m + 1) := by omega
            rw [this]; exact h)
      exact ⟨f + 1, tot, by simp only [shopifyPageLoop, if_pos hn]; exact hf⟩
    · refine ⟨1, t + (pages i).items, ?_⟩
      simp only [shopifyPageLoop]
      rw [if_neg hn]

theorem klaviyoPageLoop_some_inv (pages : Nat → Nat × Option String) :
    ∀ fuel i t total, klaviyoPageLoop pages fuel i t = some total →
      ∃ n, (pages n).2 = none := by
  intro fuel
  induction fuel with
  | zero => intro i t total h; exact Option.noConfusion h
  | succ f ih =>
    intro i t total h
    cases hn : (pages i).2 with
    | some v =>
      simp only [klaviyoPageLoop, hn] at h
      exact ih (i + 1) (t + (pages i).1) total h
    | none => exact ⟨i, hn⟩

theorem klaviyoPageLoop_terminates (pages : Nat → Nat × Option String) :
    ∀ d i t, (pages (i + d)).2 = none →
      ∃ fuel total, klaviyoPageLoop pages fuel i t = some total := by
  intro d
  induction d with
  | zero =>
    intro i t h
    refine ⟨1, t + (pages i).1, ?_⟩
    simp only [klaviyoPageLoop]
    rw [show i + 0 = i from rfl] at h
    rw [h]
  | succ m ih =>
    intro i t h
    cases hn : (pages i).2 with
    | some v =>
      obtain ⟨f, tot, hf⟩ := ih (i + 1) (t + (pages i).1)
        (by have : i + 1 + m = i + (m + 1) := by omega
            rw [this]; exact h)
      exact ⟨f + 1, tot, by simp only [klaviyoPageLoop, hn]; exact hf⟩
    | none =>
      refine ⟨1, t + (pages i).1, ?_⟩
      simp only [klaviyoPageLoop, hn]

/-- Claim C7 (amended): the pagination loops exit exactly when the provider
signals no more pages — the Shopify loop returns iff some response carries
`hasNextPage: false`, and the Klaviyo loop returns iff some response carries
no `links.next`; there is no maximum-iteration safety valve, so a provider
that always signals another page makes the routine loop forever. -/
theorem pagination_exits_iff_provider_signals_end (pages : Nat → ShopifyPage)
    (kpages : Nat → Nat × Option String) :
    ((∃ fuel total, shopifyPageLoop pages fuel 0 0 = some total) ↔
      ∃ n, (pages n).hasNextPage = false) ∧
    ((∃ fuel total, klaviyoPageLoop kpages fuel 0 0 = some total) ↔
      ∃ n, (kpages n).2 = none) := by
  constructor
  · constructor
    · rintro ⟨fuel, total, h⟩
      exact shopifyPageLoop_some_inv pages fuel 0 0 total h
    · rintro ⟨n, hn⟩
      exact shopifyPageLoop_terminates pages n 0 0 (by simpa using hn)
  · constructor
    · rintro ⟨fuel, total, h⟩
      exact klaviyoPageLoop_some_inv kpages fuel 0 0 total h
    · rintro ⟨n, hn⟩
      exact klaviyoPageLoop_terminates kpages n 0 0 (by simpa using hn)

theorem pagination_exits_iff_provider_signals_end_witness :
    ∃ fuel total,
      shopifyPageLoop (fun _ => { items := 2, hasNextPage := false, endCursor := "e" })
        fuel 0 0 = some total :=
  (pagination_exits_iff_provider_signals_end
    (fun _ => { items := 2, hasNextPage := false, endCursor := "e" })
    (fun _ => (0, none))).1.mpr ⟨0, rfl⟩

theorem findFirstDesc_fold_max :
    ∀ (rows : List SyncLogRow) (b : SyncLogRow),
      (rows.foldl
        (fun acc r =>
          match acc with
          | none => some r
          | some x => if x.completedAt < r.completedAt then some r else some x)
        (some b)).map (fun l => l.completedAt) =
      some (rows.foldl (fun m r => max m r.completedAt) b.completedAt) := by
  intro rows
  induction rows with
  | nil => intro b; rfl
  | cons r rs ih =>
    intro b
    simp only [List.foldl_cons]
    by_cases hlt : b.completedAt < r.completedAt
    · rw [if_pos hlt, ih r, max_eq_right (le_of_lt hlt)]
    · rw [if_neg hlt, ih b, max_eq_left (le_of_not_lt hlt)]

theorem getLastSyncTime_eq_specWatermark (logs : List SyncLogRow) (iid : Nat)
    (dt : String) : getLastSyncTime logs iid dt = specWatermark logs iid dt := by
  unfold getLastSyncTime specWatermark findFirstByCompletedAtDesc
  cases hf : logs.filter
      (fun l => l.integrationId == iid && l.dataType == dt && l.status == "success") with
  | nil => rfl
  | cons r rs =>
    simp only [List.foldl_cons, List.map_cons]
    rw [findFirstDesc_fold_max rs r]
    congr 1
    exact (List.foldl_map (fun l => l.completedAt) (fun m t => max m t) rs r.completedAt).symm

/-- Counterexample to claim C8: with a SyncLog containing a successful
`products` sync completed at time 1000, the watermark for `products` is
`some 1000`, yet the `syncProducts` provider request is identical to the one
issued with an empty SyncLog — no watermark is read or applied (the request
shape has no update-time filter at all); likewise `syncCampaigns` always
sends the same fixed created-after-2023 filter. -/
theorem watermark_not_applied_counterexample :
    getLastSyncTime
        [{ integrationId := 1, dataType := "products", status := "success",
           recordsCount := 5, errorMessage := none, completedAt := 1000 }] 1 "products" =
      some 1000 ∧
    shopifySyncProductsRequest
        [{ integrationId := 1, dataType := "products", status := "success",
           recordsCount := 5, errorMessage := none, completedAt := 1000 }] 1 none =
      shopifySyncProductsRequest [] 1 none ∧
    klaviyoCampaignsParams
        [{ integrationId := 1, dataType := "campaigns", status := "success",
           recordsCount := 5, errorMessage := none, completedAt := 1000 }] 1 =
      klaviyoCampaignsParams [] 1 :=
  ⟨rfl, rfl, rfl⟩

/-- Claim C8 (amended): `getLastSyncTime` computes the watermark as the
completion time of the most recent successful SyncLog row for the
(integration, dataType) — `none` (full sync) when no such row exists — and
only `syncOrders` (Shopify) and `syncEvents` (Klaviyo) apply it as a
server-side filter; `syncProducts`, `syncCampaigns`, `syncFlows` and
`syncMetrics` build their provider requests independently of the SyncLog
(`syncCampaigns` with a fixed created-after-2023 filter). -/
theorem watermark_usage_per_routine (logs logs2 : List SyncLogRow) (iid : Nat)
    (cursor : Option String) (dt : String) :
    getLastSyncTime logs iid dt = specWatermark logs iid dt ∧
    shopifySyncOrdersRequest logs iid cursor =
      { first := 50, after := cursor
        updatedAtMin := (specWatermark logs iid "orders").map isoString } ∧
    klaviyoEventsParams logs iid =
      { pageSize := 100
        filter := (specWatermark logs iid "events").map
          (fun t => "greater-than(datetime," ++ isoString t ++ ")")
        sort := some "-datetime" } ∧
    shopifySyncProductsRequest logs iid cursor =
      shopifySyncProductsRequest logs2 iid cursor ∧
    klaviyoCampaignsParams logs iid = klaviyoCampaignsParams logs2 iid ∧
    klaviyoFlowsParams logs iid = klaviyoFlowsParams logs2 iid ∧
    klaviyoMetricsParams logs iid = klaviyoMetricsParams logs2 iid ∧
    (klaviyoCampaignsParams logs iid).filter =
      some "greater-than(created,2023-01-01T00:00:00Z)" := by
  refine ⟨getLastSyncTime_eq_specWatermark logs iid dt, ?_, ?_, rfl, rfl, rfl, rfl, rfl⟩
  · unfold shopifySyncOrdersRequest
    rw [getLastSyncTime_eq_specWatermark]
  · unfold klaviyoEventsParams
    rw [getLastSyncTime_eq_specWatermark]

/-- Claim C9: for an authenticated user with no non-soft-deleted integration
for the requested provider, the status route responds HTTP 200 with
`{connected: false, provider}` — never a 404 — whatever the provider
identifier is. -/
theorem statusRoute_connected_false_not_404 (rows : List IntegrationRow)
    (userId provider : String)
    (h : ∀ r ∈ rows, ¬(r.userId = userId ∧ r.provider = provider ∧ r.deletedAt = none)) :
    integrationStatusRoute rows userId provider =
      { httpStatus := 200, connected := false, provider := provider
        id := none, status := none, lastSyncAt := none } := by
  unfold integrationStatusRoute
  have hnone : rows.find?
      (fun r => r.userId == userId && r.provider == provider && r.deletedAt.isNone) = none := by
    rw [List.find?_eq_none]
    intro x hx hcontr
    apply h x hx
    simp only [Bool.and_eq_true, beq_iff_eq, Option.isNone_iff_eq_none] at hcontr
    exact ⟨hcontr.1.1, hcontr.1.2, hcontr.2⟩
  rw [hnone]

theorem statusRoute_connected_false_not_404_witness :
    integrationStatusRoute [] "u1" "klaviyo" =
      { httpStatus := 200, connected := false, provider := "klaviyo"
        id := none, status := none, lastSyncAt := none } :=
  statusRoute_connected_false_not_404 [] "u1" "klaviyo" (by intro r hr; simp at hr)

theorem keyMatches_iff (r : IntegrationRow) (u p a : String) :
    keyMatches r u p a = true ↔ integrationKey r = (u, p, a) := by
  simp [keyMatches, integrationKey, Prod.ext_iff, and_assoc]

theorem applyUpdate_key (r : IntegrationRow) (d : UpsertData) :
    integrationKey (applyUpdate r d) = integrationKey r := rfl

theorem updateWhere_map_key (q : IntegrationRow → Bool) (d : UpsertData) :
    ∀ rows : List IntegrationRow,
      (updateWhere rows q (fun x => applyUpdate x d)).map integrationKey =
        rows.map integrationKey := by
  intro rows
  induction rows with
  | nil => rfl
  | cons r rs ih =>
    by_cases hq : q r = true
    · simp [updateWhere, hq, applyUpdate_key]
    · simp only [updateWhere, Bool.not_eq_true] at hq ⊢
      rw [hq]
      simp [ih]

theorem updateWhere_length (q : IntegrationRow → Bool)
    (f : IntegrationRow → IntegrationRow) :
    ∀ rows : List IntegrationRow, (updateWhere rows q f).length = rows.length := by
  intro rows
  induction rows with
  | nil => rfl
  | cons r rs ih =>
    by_cases hq : q r = true
    · simp [updateWhere, hq]
    · simp only [updateWhere, Bool.not_eq_true] at hq ⊢
      rw [hq]
      simp [ih]

theorem find?_updateWhere_mem (q : IntegrationRow → Bool)
    (f : IntegrationRow → IntegrationRow) :
    ∀ (rows : List IntegrationRow) (r : IntegrationRow),
      rows.find? q = some r → f r ∈ updateWhere rows q f := by
  intro rows
  induction rows with
  | nil => intro r h; simp at h
  | cons a rs ih =>
    intro r h
    by_cases hq : q a = true
    · rw [List.find?_cons_of_pos _ hq] at h
      injection h with h
      subst h
      simp [updateWhere, hq]
    · rw [List.find?_cons_of_neg _ (by simpa using hq)] at h
      rw [Bool.not_eq_true] at hq
      have hrw : updateWhere (a :: rs) q f = a :: updateWhere rs q f := by
        simp [updateWhere, hq]
      rw [hrw]
      exact List.mem_cons_of_mem _ (ih r h)

theorem upsertIntegration_row_fields (rows : List IntegrationRow) (fid : Nat)
    (u p a : String) (d : UpsertData) :
    (upsertIntegration rows fid u p a d).2.userId = u ∧
    (upsertIntegration rows fid u p a d).2.provider = p ∧
    (upsertIntegration rows fid u p a d).2.accountId = a ∧
    (upsertIntegration rows fid u p a d).2.status = "connected" ∧
    (upsertIntegration rows fid u p a d).2.deletedAt = none ∧
    (upsertIntegration rows fid u p a d).2.accessToken = d.accessToken ∧
    (upsertIntegration rows fid u p a d).2.refreshToken = d.refreshToken := by
  unfold upsertIntegration
  cases hf : rows.find? (fun r => keyMatches r u p a) with
  | none => exact ⟨rfl, rfl, rfl, rfl, rfl, rfl, rfl⟩
  | some r =>
    have hk := List.find?_some hf
    have hkey := (keyMatches_iff r u p a).mp hk
    have h1 : r.userId = u := congrArg (fun t => t.1) hkey
    have h2 : r.provider = p := congrArg (fun t => t.2.1) hkey
    have h3 : r.accountId = a := congrArg (fun t => t.2.2) hkey
    exact ⟨h1, h2, h3, rfl, rfl, rfl, rfl⟩

theorem upsertIntegration_mem (rows : List IntegrationRow) (fid : Nat)
    (u p a : String) (d : UpsertData) :
    (upsertIntegration rows fid u p a d).2 ∈ (upsertIntegration rows fid u p a d).1 := by
  unfold upsertIntegration
  cases hf : rows.find? (fun r => keyMatches r u p a) with
  | none => simp
  | some r => exact find?_updateWhere_mem _ _ rows r hf

theorem upsertIntegration_keyUnique (rows : List IntegrationRow) (fid : Nat)
    (u p a : String) (d : UpsertData) (h : keyUnique rows) :
    keyUnique (upsertIntegration rows fid u p a d).1 := by
  unfold upsertIntegration keyUnique
  cases hf : rows.find? (fun r => keyMatches r u p a) with
  | some r =>
    rw [updateWhere_map_key]
    exact h
  | none =>
    have hnotin : (u, p, a) ∉ rows.map integrationKey := by
      intro hmem
      obtain ⟨x, hx, hkx⟩ := List.mem_map.mp hmem
      have hx2 : keyMatches x u p a = true := (keyMatches_iff x u p a).mpr hkx
      exact (List.find?_eq_none.mp hf x hx) hx2
    rw [List.map_append]
    refine List.Nodup.append h (by simp) ?_
    intro k hk1 hk2
    simp only [List.map_cons, List.map_nil, List.mem_singleton] at hk2
    have : k = (u, p, a) := hk2
    exact hnotin (this ▸ hk1)

theorem upsertIntegration_update_length (rows : List IntegrationRow) (fid : Nat)
    (u p a : String) (d : UpsertData)
    (h : ∃ r ∈ rows, keyMatches r u p a = true) :
    (upsertIntegration rows fid u p a d).1.length = rows.length := by
  unfold upsertIntegration
  cases hf : rows.find? (fun r => keyMatches r u p a) with
  | some r => exact updateWhere_length _ _ rows
  | none =>
    obtain ⟨x, hx, hkx⟩ := h
    exact absurd hkx (List.find?_eq_none.mp hf x hx)

theorem upsertIntegration_create (rows : List IntegrationRow) (fid : Nat)
    (u p a : String) (d : UpsertData)
    (h : ∀ r ∈ rows, keyMatches r u p a = false) :
    (upsertIntegration rows fid u p a d).1 =
      rows ++ [(upsertIntegration rows fid u p a d).2] := by
  unfold upsertIntegration
  have hf : rows.find? (fun r => keyMatches r u p a) = none :=
    List.find?_eq_none.mpr (fun x hx => by rw [h x hx]; simp)
  rw [hf]

theorem nodup_filter_singleton {α : Type} (l : List α) (pq : α → Bool) (a : α)
    (hnd : l.Nodup) (ha : a ∈ l) (hpa : pq a = true)
    (hall : ∀ x ∈ l, pq x = true → x = a) : l.filter pq = [a] := by
  have hmem : a ∈ l.filter pq := List.mem_filter.mpr ⟨ha, hpa⟩
  have hnd2 : (l.filter pq).Nodup := hnd.filter pq
  have hall2 : ∀ x ∈ l.filter pq, x = a := fun x hx =>
    hall x (List.mem_filter.mp hx).1 (List.mem_filter.mp hx).2
  cases hfl : l.filter pq with
  | nil => rw [hfl] at hmem; simp at hmem
  | cons b t =>
    rw [hfl] at hall2 hnd2
    have hb : b = a := hall2 b (List.mem_cons_self _ _)
    subst hb
    cases t with
    | nil => rfl
    | cons c t2 =>
      have hc : c = b := hall2 c (by simp)
      subst hc
      simp at hnd2

theorem handleOAuthCallback_ok_inv (ex : String → Option String → Option TokenData)
    (enc : String → String) (sc : List String) (now : Int) (db : Db)
    (pr code st : String) (cbm : List (String × String)) (i : IntegrationRow)
    (h : (handleOAuthCallback ex enc sc now db pr code st cbm).result = Except.ok i) :
    ∃ srow td,
      validateOAuthState now db st = some srow ∧
      ex code srow.codeVerifier = some td ∧
      td.accountId ≠ "" ∧
      i = (upsertIntegration db.integrations db.nextId srow.userId pr td.accountId
        { accessToken := enc td.accessToken
          refreshToken := td.refreshToken.map enc
          expiresAt := td.expiresAt
          metadata := mergeMeta (mergeMeta srow.metadata cbm) td.metadata
          scopes := sc }).2 ∧
      (handleOAuthCallback ex enc sc now db pr code st cbm).db.integrations =
        (upsertIntegration db.integrations db.nextId srow.userId pr td.accountId
          { accessToken := enc td.accessToken
            refreshToken := td.refreshToken.map enc
            expiresAt := td.expiresAt
            metadata := mergeMeta (mergeMeta srow.metadata cbm) td.metadata
            scopes := sc }).1 ∧
      (handleOAuthCallback ex enc sc now db pr code st cbm).db.oauthStates =
        db.oauthStates.filter (fun r => r.state ≠ st) ∧
      (handleOAuthCallback ex enc sc now db pr code st cbm).db.nextId = db.nextId + 1 := by
  unfold handleOAuthCallback at h ⊢
  cases hv : validateOAuthState now db st with
  | none => simp [hv] at h
  | some srow =>
    simp only [hv] at h ⊢
    cases hex : ex code srow.codeVerifier with
    | none => simp [hex] at h
    | some td =>
      simp only [hex] at h ⊢
      by_cases hacc : td.accountId = ""
      · simp [hacc] at h
      · simp only [if_neg hacc] at h ⊢
        refine ⟨srow, td, rfl, hex, hacc, ?_, rfl, rfl, rfl⟩
        have h2 : Except.ok ((upsertIntegration db.integrations db.nextId srow.userId pr
            td.accountId
            { accessToken := enc td.accessToken
              refreshToken := td.refreshToken.map enc
              expiresAt := td.expiresAt
              metadata := mergeMeta (mergeMeta srow.metadata cbm) td.metadata
              scopes := sc }).2) = Except.ok i := h
        injection h2 with h2
        exact h2.symm

theorem handleOAuthCallback_invalid_of_find_none
    (ex : String → Option String → Option TokenData) (enc : String → String)
    (sc : List String) (now : Int) (db : Db) (pr code st : String)
    (cbm : List (String × String))
    (hmiss : db.oauthStates.find? (fun r => r.state = st) = none) :
    handleOAuthCallback ex enc sc now db pr code st cbm =
      { db := db, result := Except.error CbError.invalidState, events := [] } := by
  unfold handleOAuthCallback validateOAuthState
  simp [hmiss]

theorem handleOAuthCallback_invalid_of_expired
    (ex : String → Option String → Option TokenData) (enc : String → String)
    (sc : List String) (now : Int) (db : Db) (pr code st : String)
    (cbm : List (String × String)) (r : OAuthStateRow)
    (hfind : db.oauthStates.find? (fun x => x.state = st) = some r)
    (hexp : r.expiresAt < now) :
    handleOAuthCallback ex enc sc now db pr code st cbm =
      { db := db, result := Except.error CbError.invalidState, events := [] } := by
  unfold handleOAuthCallback validateOAuthState
  simp [hfind, hexp]

theorem find?_state_filter_ne (states : List OAuthStateRow) (st : String) :
    (states.filter (fun r => r.state ≠ st)).find? (fun r => r.state = st) = none := by
  rw [List.find?_eq_none]
  intro x hx
  have hne := (List.mem_filter.mp hx).2
  simp only [decide_not, Bool.not_eq_true', decide_eq_false_iff_not] at hne
  simp [hne]

/-- Claim C2: an OAuth state token is single-use and validated before any
token exchange — when the state row is missing or its `expiresAt` is in the
past, `handleOAuthCallback` fails with the invalid-state error, performs no
token exchange and writes nothing; and a state consumed by one successful
callback is deleted, so a second callback with the same state value fails
the same way. -/
theorem oauth_state_single_use (ex : String → Option String → Option TokenData)
    (enc : String → String) (sc : List String) (now now' : Int) (db : Db)
    (pr code code' st : String) (cbm cbm' : List (String × String)) :
    ((db.oauthStates.find? (fun r => r.state = st) = none ∨
      ∃ r, db.oauthStates.find? (fun r => r.state = st) = some r ∧ r.expiresAt < now) →
      (handleOAuthCallback ex enc sc now db pr code st cbm).result =
          Except.error CbError.invalidState ∧
        (handleOAuthCallback ex enc sc now db pr code st cbm).db = db ∧
        CbEvent.exchange ∉ (handleOAuthCallback ex enc sc now db pr code st cbm).events) ∧
    (∀ i, (handleOAuthCallback ex enc sc now db pr code st cbm).result = Except.ok i →
      (handleOAuthCallback ex enc sc now'
          (handleOAuthCallback ex enc sc now db pr code st cbm).db pr code' st cbm').result =
        Except.error CbError.invalidState) := by
  constructor
  · rintro (hmiss | ⟨r, hfind, hexp⟩)
    · rw [handleOAuthCallback_invalid_of_find_none ex enc sc now db pr code st cbm hmiss]
      exact ⟨rfl, rfl, by simp⟩
    · rw [handleOAuthCallback_invalid_of_expired ex enc sc now db pr code st cbm r hfind hexp]
      exact ⟨rfl, rfl, by simp⟩
  · intro i hok
    obtain ⟨srow, td, hv, hex, hacc, hi, hint, hstates, hnid⟩ :=
      handleOAuthCallback_ok_inv ex enc sc now db pr code st cbm i hok
    have hmiss : ((handleOAuthCallback ex enc sc now db pr code st cbm).db).oauthStates.find?
        (fun r => r.state = st) = none := by
      rw [hstates]
      exact find?_state_filter_ne db.oauthStates st
    rw [handleOAuthCallback_invalid_of_find_none ex enc sc now'
      (handleOAuthCallback ex enc sc now db pr code st cbm).db pr code' st cbm' hmiss]

theorem oauth_state_single_use_witness :
    (handleOAuthCallback exW (fun s => s) [] 0
        (handleOAuthCallback exW (fun s => s) [] 0 dbW "shopify" "c1" "s1" []).db
        "shopify" "c2" "s1" []).result = Except.error CbError.invalidState :=
  (oauth_state_single_use exW (fun s => s) [] 0 0 dbW "shopify" "c1" "c2" "s1" [] []).2
    ⟨0, "u", "shopify", "shop1", "Ac1", none, none, [], [], "connected", none, none⟩ rfl

/-- Claim C1: `handleOAuthCallback` is an idempotent upsert keyed on
`(userId, provider, accountId)` — after two successful callbacks resolving
to the same key tuple, exactly one non-soft-deleted Integration row with
that tuple exists, it is the second call's row carrying the second call's
encrypted tokens, the update path set `deletedAt` to `null` and `status` to
`connected` and inserted no new row, while a first callback for a tuple
absent from the database appends a fresh row. -/
theorem oauth_callback_idempotent_upsert
    (ex : String → Option String → Option TokenData) (enc : String → String)
    (sc : List String) (now₁ now₂ : Int) (db0 : Db) (pr c₁ c₂ s₁ s₂ : String)
    (m₁ m₂ : List (String × String)) (o₁ o₂ : CbOutcome) (i₁ i₂ : IntegrationRow)
    (hU : keyUnique db0.integrations)
    (ho₁ : o₁ = handleOAuthCallback ex enc sc now₁ db0 pr c₁ s₁ m₁)
    (ho₂ : o₂ = handleOAuthCallback ex enc sc now₂ o₁.db pr c₂ s₂ m₂)
    (h₁ : o₁.result = Except.ok i₁) (h₂ : o₂.result = Except.ok i₂)
    (hsame : i₂.userId = i₁.userId ∧ i₂.accountId = i₁.accountId) :
    (o₂.db.integrations.filter
      (fun r => keyMatches r i₁.userId pr i₁.accountId && r.deletedAt.isNone)).length = 1 ∧
    (∀ r ∈ o₂.db.integrations,
      (keyMatches r i₁.userId pr i₁.accountId && r.deletedAt.isNone) = true → r = i₂) ∧
    i₂.status = "connected" ∧ i₂.deletedAt = none ∧
    (∃ srow td, validateOAuthState now₂ o₁.db s₂ = some srow ∧
      ex c₂ srow.codeVerifier = some td ∧
      i₂.accessToken = enc td.accessToken ∧ i₂.refreshToken = td.refreshToken.map enc) ∧
    o₂.db.integrations.length = o₁.db.integrations.length ∧
    ((∀ r ∈ db0.integrations, keyMatches r i₁.userId pr i₁.accountId = false) →
      o₁.db.integrations = db0.integrations ++ [i₁]) := by
  subst ho₁
  subst ho₂
  obtain ⟨srow₁, td₁, hv₁, hex₁, hacc₁, hi₁, hint₁, hst₁, hnid₁⟩ :=
    handleOAuthCallback_ok_inv ex enc sc now₁ db0 pr c₁ s₁ m₁ i₁ h₁
  obtain ⟨srow₂, td₂, hv₂, hex₂, hacc₂, hi₂, hint₂, hst₂, hnid₂⟩ :=
    handleOAuthCallback_ok_inv ex enc sc now₂
      (handleOAuthCallback ex enc sc now₁ db0 pr c₁ s₁ m₁).db pr c₂ s₂ m₂ i₂ h₂
  have F₁ := upsertIntegration_row_fields db0.integrations db0.nextId srow₁.userId pr
    td₁.accountId
    { accessToken := enc td₁.accessToken
      refreshToken := td₁.refreshToken.map enc
      expiresAt := td₁.expiresAt
      metadata := mergeMeta (mergeMeta srow₁.metadata m₁) td₁.metadata
      scopes := sc }
  have e1u : i₁.userId = srow₁.userId := by rw [hi₁]; exact F₁.1
  have e1p : i₁.provider = pr := by rw [hi₁]; exact F₁.2.1
  have e1a : i₁.accountId = td₁.accountId := by rw [hi₁]; exact F₁.2.2.1
  have hU₁ : keyUnique (handleOAuthCallback ex enc sc now₁ db0 pr c₁ s₁ m₁).db.integrations := by
    rw [hint₁]; exact upsertIntegration_keyUnique _ _ _ _ _ _ hU
  have hmem₁ : i₁ ∈ (handleOAuthCallback ex enc sc now₁ db0 pr c₁ s₁ m₁).db.integrations := by
    rw [hint₁, hi₁]; exact upsertIntegration_mem _ _ _ _ _ _
  have F₂ := upsertIntegration_row_fields
    (handleOAuthCallback ex enc sc now₁ db0 pr c₁ s₁ m₁).db.integrations
    (handleOAuthCallback ex enc sc now₁ db0 pr c₁ s₁ m₁).db.nextId srow₂.userId pr
    td₂.accountId
    { accessToken := enc td₂.accessToken
      refreshToken := td₂.refreshToken.map enc
      expiresAt := td₂.expiresAt
      metadata := mergeMeta (mergeMeta srow₂.metadata m₂) td₂.metadata
      scopes := sc }
  have e2u : i₂.userId = srow₂.userId := by rw [hi₂]; exact F₂.1
  have e2p : i₂.provider = pr := by rw [hi₂]; exact F₂.2.1
  have e2a : i₂.accountId = td₂.accountId := by rw [hi₂]; exact F₂.2.2.1
  have e2s : i₂.status = "connected" := by rw [hi₂]; exact F₂.2.2.2.1
  have e2d : i₂.deletedAt = none := by rw [hi₂]; exact F₂.2.2.2.2.1
  have e2t : i₂.accessToken = enc td₂.accessToken := by rw [hi₂]; exact F₂.2.2.2.2.2.1
  have e2r : i₂.refreshToken = td₂.refreshToken.map enc := by rw [hi₂]; exact F₂.2.2.2.2.2.2
  have hU₂ : keyUnique (handleOAuthCallback ex enc sc now₂
      (handleOAuthCallback ex enc sc now₁ db0 pr c₁ s₁ m₁).db pr c₂ s₂ m₂).db.integrations := by
    rw [hint₂]; exact upsertIntegration_keyUnique _ _ _ _ _ _ hU₁
  have hmem₂ : i₂ ∈ (handleOAuthCallback ex enc sc now₂
      (handleOAuthCallback ex enc sc now₁ db0 pr c₁ s₁ m₁).db pr c₂ s₂ m₂).db.integrations := by
    rw [hint₂, hi₂]; exact upsertIntegration_mem _ _ _ _ _ _
  have hkey₂ : integrationKey i₂ = (i₁.userId, pr, i₁.accountId) := by
    unfold integrationKey
    rw [e2p, hsame.1, hsame.2]
  have hall : ∀ r ∈ (handleOAuthCallback ex enc sc now₂
      (handleOAuthCallback ex enc sc now₁ db0 pr c₁ s₁ m₁).db pr c₂ s₂ m₂).db.integrations,
      (keyMatches r i₁.userId pr i₁.accountId && r.deletedAt.isNone) = true → r = i₂ := by
    intro r hr hk
    rw [Bool.and_eq_true] at hk
    have hk1 : keyMatches r i₁.userId pr i₁.accountId = true := hk.1
    have hkr : integrationKey r = (i₁.userId, pr, i₁.accountId) :=
      (keyMatches_iff _ _ _ _).mp hk1
    exact List.inj_on_of_nodup_map hU₂ hr hmem₂ (hkr.trans hkey₂.symm)
  refine ⟨?_, hall, e2s, e2d, ⟨srow₂, td₂, hv₂, hex₂, e2t, e2r⟩, ?_, ?_⟩
  · have hsingle : ((handleOAuthCallback ex enc sc now₂
        (handleOAuthCallback ex enc sc now₁ db0 pr c₁ s₁ m₁).db pr c₂ s₂ m₂).db.integrations.filter
        (fun r => keyMatches r i₁.userId pr i₁.accountId && r.deletedAt.isNone)) = [i₂] := by
      apply nodup_filter_singleton _ _ i₂ (List.Nodup.of_map _ hU₂) hmem₂
      · rw [Bool.and_eq_true]
        refine ⟨(keyMatches_iff _ _ _ _).mpr hkey₂, ?_⟩
        rw [e2d]; rfl
      · exact hall
    rw [hsingle]
    rfl
  · rw [hint₂]
    refine upsertIntegration_update_length _ _ _ _ _ _ ⟨i₁, hmem₁, ?_⟩
    rw [keyMatches_iff]
    show (i₁.userId, i₁.provider, i₁.accountId) = (srow₂.userId, pr, td₂.accountId)
    rw [e1p, ← e2u, ← e2a, hsame.1, hsame.2]
  · intro hnone
    rw [hint₁, hi₁]
    refine upsertIntegration_create _ _ _ _ _ _ ?_
    intro r hr
    have h := hnone r hr
    rwa [e1u, e1a] at h

theorem oauth_callback_idempotent_upsert_witness :
    ((handleOAuthCallback exW (fun s => s) [] 0
        (handleOAuthCallback exW (fun s => s) [] 0 dbW "shopify" "c1" "s1" []).db
        "shopify" "c2" "s2" []).db.integrations.filter
      (fun r => keyMatches r "u" "shopify" "shop1" && r.deletedAt.isNone)).length = 1 :=
  (oauth_callback_idempotent_upsert exW (fun s => s) [] 0 0 dbW "shopify" "c1" "c2" "s1" "s2"
    [] [] _ _
    ⟨0, "u", "shopify", "shop1", "Ac1", none, none, [], [], "connected", none, none⟩
    ⟨0, "u", "shopify", "shop1", "Ac2", none, none, [], [], "connected", none, none⟩
    (by simp [keyUnique, dbW]) rfl rfl rfl rfl ⟨rfl, rfl⟩).1
